import Mathlib

/-!
Verification development for the Vereshchagin hybrid-dynamics solver of
orocos_kinematics_dynamics (`src/orocos_kdl/src/chainidsolver_vereshchagin.hpp`).

The repository snapshot contains only the solver's header: the class
declaration, its documentation, the member declarations and the inline
`segment_info` constructor.  The bodies of `CartToJnt` and of the four sweep
methods are not part of the snapshot, so those parts are modelled from the
specification (each such definition carries a doc comment starting with
`Modelled from the spec:`).  Real-valued quantities are embedded as rationals;
vectors and matrices are total functions on `Fin`-indexed coordinates.
-/

/-- 6-dimensional spatial vector (twist or wrench), embedded over `ℚ`. -/
abbrev Vec6 := Fin 6 → ℚ

/-- 6×6 spatial operator (articulated-body inertia and friends). -/
abbrev Mat6 := Fin 6 → Fin 6 → ℚ

/-- Dot product of two coordinate vectors. -/
def dotP {n : ℕ} (x y : Fin n → ℚ) : ℚ := ∑ r, x r * y r

/-- Matrix-times-vector product on coordinate functions. -/
def mulMV {m n : ℕ} (M : Fin m → Fin n → ℚ) (v : Fin n → ℚ) : Fin m → ℚ :=
  fun r => ∑ c, M r c * v c

/-- A matrix with zero columns maps every vector to the zero vector. -/
theorem mulMV_of_cols_eq_zero {m n : ℕ} (h : n = 0) (M : Fin m → Fin n → ℚ)
    (v : Fin n → ℚ) : mulMV M v = 0 := by
  subst h
  funext r
  simp [mulMV]

/-- `dotP` distributes over pointwise sums. -/
theorem dotP_add {n : ℕ} (x y z : Fin n → ℚ) :
    dotP x (fun r => y r + z r) = dotP x y + dotP x z := by
  simp [dotP, mul_add, Finset.sum_add_distrib]

/-!
## Per-segment record buffers (`segment_info`, header lines 148-191)

`segment_info` is declared inline in the header, so this part is embedded
directly from the source.  The `nc`-sized buffers are embedded as lists so
that their sizes are propositions about the data (the C++ buffers are
dynamically sized Eigen matrices).  The spatial members the C++ constructor
leaves to the members' own default constructors (`Twist`/`Wrench` members,
whose KDL default constructors zero their coordinates) are embedded as
length-6 lists; the `Frame` and inertia members carry no data relevant to the
claims and are omitted.
-/

/-- Embedding of `struct segment_info` (header lines 148-191): the
constraint-sized buffers `E`, `E_tilde` (6×nc), `M` (nc×nc), `G`, `EZ`
(length nc), the scalar fields initialised by the constructor, and the
spatial twist/wrench members as length-6 coordinate lists. -/
structure SegRecord where
  Z : List ℚ
  v : List ℚ
  acc : List ℚ
  U : List ℚ
  R : List ℚ
  C : List ℚ
  E : List (List ℚ)
  E_tilde : List (List ℚ)
  M : List (List ℚ)
  G : List ℚ
  EZ : List ℚ
  D : ℚ
  nullspaceAccComp : ℚ
  constAccComp : ℚ
  biasAccComp : ℚ
  totalBias : ℚ
  u : ℚ
  deriving DecidableEq

/-- Embedding of the `segment_info(unsigned int nc)` constructor (header
lines 177-190): scalars `D`, `nullspaceAccComp`, `constAccComp`,
`biasAccComp`, `totalBias`, `u` are initialised to `0`; `E` and `E_tilde`
are resized to 6×nc and zeroed; `M` to nc×nc and zeroed; `G` and `EZ` to
length nc and zeroed. -/
def segment_info (nc : ℕ) : SegRecord where
  Z := List.replicate 6 0
  v := List.replicate 6 0
  acc := List.replicate 6 0
  U := List.replicate 6 0
  R := List.replicate 6 0
  C := List.replicate 6 0
  E := List.replicate 6 (List.replicate nc 0)
  E_tilde := List.replicate 6 (List.replicate nc 0)
  M := List.replicate nc (List.replicate nc 0)
  G := List.replicate nc 0
  EZ := List.replicate nc 0
  D := 0
  nullspaceAccComp := 0
  constAccComp := 0
  biasAccComp := 0
  totalBias := 0
  u := 0

/-- C10: for every constraint count `nc`, a freshly constructed per-segment
record has its unit-constraint-force matrices `E` and `E_tilde` of shape
6×nc with every entry zero, its acceleration-energy matrix `M` of shape
nc×nc with every entry zero, its vectors `G` and `EZ` of length `nc` with
every entry zero, and its scalar fields `D`, `nullspaceAccComp`,
`constAccComp`, `biasAccComp`, `totalBias` and `u` all equal to `0`. -/
theorem segment_info_fresh_zero (nc : ℕ) :
    ((segment_info nc).E.length = 6 ∧
      ∀ row ∈ (segment_info nc).E, row.length = nc ∧ ∀ x ∈ row, x = 0) ∧
    ((segment_info nc).E_tilde.length = 6 ∧
      ∀ row ∈ (segment_info nc).E_tilde, row.length = nc ∧ ∀ x ∈ row, x = 0) ∧
    ((segment_info nc).M.length = nc ∧
      ∀ row ∈ (segment_info nc).M, row.length = nc ∧ ∀ x ∈ row, x = 0) ∧
    ((segment_info nc).G.length = nc ∧ ∀ x ∈ (segment_info nc).G, x = 0) ∧
    ((segment_info nc).EZ.length = nc ∧ ∀ x ∈ (segment_info nc).EZ, x = 0) ∧
    (segment_info nc).D = 0 ∧
    (segment_info nc).nullspaceAccComp = 0 ∧
    (segment_info nc).constAccComp = 0 ∧
    (segment_info nc).biasAccComp = 0 ∧
    (segment_info nc).totalBias = 0 ∧
    (segment_info nc).u = 0 := by
  refine ⟨⟨by simp [segment_info], ?_⟩, ⟨by simp [segment_info], ?_⟩,
    ⟨by simp [segment_info], ?_⟩, ⟨by simp [segment_info], ?_⟩,
    ⟨by simp [segment_info], ?_⟩, rfl, rfl, rfl, rfl, rfl, rfl⟩
  · intro row hrow
    rw [List.eq_of_mem_replicate (show row ∈ List.replicate 6 (List.replicate nc (0:ℚ)) from hrow)]
    exact ⟨by simp, fun x hx => List.eq_of_mem_replicate hx⟩
  · intro row hrow
    rw [List.eq_of_mem_replicate (show row ∈ List.replicate 6 (List.replicate nc (0:ℚ)) from hrow)]
    exact ⟨by simp, fun x hx => List.eq_of_mem_replicate hx⟩
  · intro row hrow
    rw [List.eq_of_mem_replicate (show row ∈ List.replicate nc (List.replicate nc (0:ℚ)) from hrow)]
    exact ⟨by simp, fun x hx => List.eq_of_mem_replicate hx⟩
  · intro x hx
    exact List.eq_of_mem_replicate hx
  · intro x hx
    exact List.eq_of_mem_replicate hx

/-- Closed instance of `segment_info_fresh_zero`: the fresh record for
`nc = 2` has a zero row of length 2 in `E` and zero scalar fields. -/
theorem segment_info_fresh_zero_witness :
    (List.replicate 2 (0:ℚ)).length = 2 ∧ (segment_info 2).D = 0 := by
  refine ⟨((segment_info_fresh_zero 2).1.2 (List.replicate 2 0) ?_).1,
    (segment_info_fresh_zero 2).2.2.2.2.2.1⟩
  simp [segment_info]

/-!
## Inward inertia/bias sweep, algorithmic layer

Modelled from the spec: the bodies of the four sweep methods are not part of
the repository snapshot (only their declarations, header lines 108-127).
Spec §4.2 describes the tip-to-base sweep: the articulated-body inertia is a
segment's rigid-body inertia plus its child's projected articulated inertia
(Featherstone reduction); bias wrenches propagate the same way; the scalar
joint-space bias follows the header's own documented formula (line 175)
`u[i] = torques(i) - S[i]^T*(p_A[i] + I_A[i]*C[i])`, realised in code as
`u[i] = torques(i) - totalBias` with `totalBias = S^T (R + PC)`,
`PZ = I_A*S` (line 163), `PC = I_A*C` (line 164), `D = S^T*PZ` (line 165).
The constraint quantities `E`, `EZ`, `E_tilde`, `M`, `G` follow the roles the
spec assigns them (propagated unit constraint forces and accumulated
acceleration-energy matrices); their precise recursions follow the standard
Vereshchagin scheme the spec cites.
-/

/-- Modelled from the spec: per-call input of the inward sweep (§4.2) — the
chain data (motion subspaces `S`, rigid-body inertias `Hrb`), the outward
sweep's products (bias wrenches `Uw`, bias acceleration twists `Cb`, spec
§4.1), the applied joint torques `tau`, the joint velocities `qd`, and the
`6×nc` constraint Jacobian `alfa` at the tip.  Spec §4.1 gives no closed
formulas for the bias terms, so they enter as given per-segment data. -/
structure DynIn (nc : ℕ) where
  ns : ℕ
  S : ℕ → Vec6
  Hrb : ℕ → Mat6
  Uw : ℕ → Vec6
  Cb : ℕ → Vec6
  tau : ℕ → ℚ
  qd : ℕ → ℚ
  alfa : Fin 6 → Fin nc → ℚ

/-- Modelled from the spec: what the inward sweep stores for one segment
(spec §4.2). -/
structure SegArt (nc : ℕ) where
  P : Mat6
  PZ : Vec6
  D : ℚ
  R : Vec6
  PC : Vec6
  totalBias : ℚ
  u : ℚ
  P_tilde : Mat6
  R_tilde : Vec6
  E : Fin 6 → Fin nc → ℚ
  EZ : Fin nc → ℚ
  E_tilde : Fin 6 → Fin nc → ℚ
  Mm : Fin nc → Fin nc → ℚ
  G : Fin nc → ℚ

/-- Modelled from the spec: the quantities a segment receives from its child
during the inward sweep (or the tip seeds). -/
structure SegIn (nc : ℕ) where
  Pin : Mat6
  Rin : Vec6
  Ein : Fin 6 → Fin nc → ℚ
  Min : Fin nc → Fin nc → ℚ
  Gin : Fin nc → ℚ

/-- Modelled from the spec: tip seeds of the inward sweep — no articulated
inertia or bias wrench beyond the tip; the unit constraint forces are seeded
with the constraint Jacobian columns applied at the end-effector (§4.2). -/
def tipSeed (nc : ℕ) (alfa : Fin 6 → Fin nc → ℚ) : SegIn nc :=
  ⟨0, 0, alfa, 0, 0⟩

/-- Modelled from the spec: the projected ("tilde") quantities a segment
passes to its parent (§4.2). -/
def childSeed {nc : ℕ} (c : SegArt nc) : SegIn nc :=
  ⟨c.P_tilde, c.R_tilde, c.E_tilde, c.Mm, c.G⟩

/-- Modelled from the spec: one step of the inward sweep at segment `i`
(§4.2 plus the header's documented formulas, lines 163-175). -/
def mkSeg {nc : ℕ} (d : DynIn nc) (i : ℕ) (inp : SegIn nc) : SegArt nc :=
  let P : Mat6 := fun r c => d.Hrb i r c + inp.Pin r c
  let PZ : Vec6 := mulMV P (d.S i)
  let D : ℚ := dotP (d.S i) PZ
  let R : Vec6 := fun r => d.Uw i r + inp.Rin r
  let PC : Vec6 := mulMV P (d.Cb i)
  let totalBias : ℚ := dotP (d.S i) (fun r => R r + PC r)
  let u : ℚ := d.tau i - totalBias
  let P_tilde : Mat6 := fun r c => P r c - PZ r * PZ c / D
  let R_tilde : Vec6 := fun r => R r + PC r + PZ r * (u / D)
  let E : Fin 6 → Fin nc → ℚ := inp.Ein
  let EZ : Fin nc → ℚ := fun k => dotP (d.S i) (fun r => E r k)
  let E_tilde : Fin 6 → Fin nc → ℚ := fun r k => E r k - PZ r * EZ k / D
  let Mm : Fin nc → Fin nc → ℚ := fun k l => inp.Min k l + EZ k * EZ l / D
  let G : Fin nc → ℚ :=
    fun k => inp.Gin k + dotP (d.Cb i) (fun r => E r k) + EZ k * (u / D)
  ⟨P, PZ, D, R, PC, totalBias, u, P_tilde, R_tilde, E, EZ, E_tilde, Mm, G⟩

/-- Modelled from the spec: the inward sweep as a structural recursion on the
number of segments between `i` and the tip (`fuel`); segment `i` combines its
own data with its child's projected quantities, the tip with the seeds. -/
def downwards_from {nc : ℕ} (d : DynIn nc) : ℕ → ℕ → SegArt nc
  | 0, i => mkSeg d i (tipSeed nc d.alfa)
  | fuel + 1, i =>
      if i + 1 < d.ns then mkSeg d i (childSeed (downwards_from d fuel (i + 1)))
      else mkSeg d i (tipSeed nc d.alfa)

/-- Modelled from the spec: the articulated record of segment `i` after the
inward sweep (`downwards_sweep`, header line 117). -/
def segAt {nc : ℕ} (d : DynIn nc) (i : ℕ) : SegArt nc :=
  downwards_from d (d.ns - (i + 1)) i

/-- Every segment record produced by the inward sweep is `mkSeg` applied at
that segment's index, for some incoming child quantities. -/
theorem segAt_eq_mkSeg {nc : ℕ} (d : DynIn nc) (i : ℕ) :
    ∃ inp : SegIn nc, segAt d i = mkSeg d i inp := by
  unfold segAt
  cases h : d.ns - (i + 1) with
  | zero => exact ⟨tipSeed nc d.alfa, rfl⟩
  | succ fuel =>
      unfold downwards_from
      by_cases hlt : i + 1 < d.ns
      · exact ⟨childSeed (downwards_from d fuel (i + 1)), by rw [if_pos hlt]⟩
      · exact ⟨tipSeed nc d.alfa, by rw [if_neg hlt]⟩

/-- C5: during the inward sweep, every segment's scalar joint-space bias
satisfies `u[i] = torques(i) - S[i]^T (p_A[i] + I_A[i] C[i])`, where `p_A`
is the segment's accumulated bias wrench (`R`) and `I_A` its articulated-body
inertia (`P`), exactly the formula documented at header line 175. -/
theorem downwards_sweep_u_eq (nc : ℕ) (d : DynIn nc) (i : ℕ) :
    (segAt d i).u =
      d.tau i - dotP (d.S i)
        (fun r => (segAt d i).R r + mulMV (segAt d i).P (d.Cb i) r) := by
  obtain ⟨inp, hseg⟩ := segAt_eq_mkSeg d i
  rw [hseg]
  rfl

/-!
## Final outward sweep and the unconstrained recursion, algorithmic layer
-/

/-- Modelled from the spec: nullspace contribution of spec §4.4 — joint-space
acceleration from the residual torque `u` alone. -/
def nullspaceAcc {nc : ℕ} (g : SegArt nc) : ℚ := g.u / g.D

/-- Modelled from the spec: parent-propagated acceleration contribution of
spec §4.4. -/
def parentAccK {nc : ℕ} (g : SegArt nc) (a : Vec6) : ℚ := -dotP g.PZ a / g.D

/-- Modelled from the spec: bias (Coriolis/centrifugal + external force)
acceleration contribution of spec §4.4. -/
def biasAccK {nc : ℕ} (d : DynIn nc) (g : SegArt nc) (i : ℕ) : ℚ :=
  -dotP g.PZ (d.Cb i) / g.D

/-- Modelled from the spec: constraint-force-induced acceleration
contribution of spec §4.4 — `E·λ` projected into joint space. -/
def constraintAccK {nc : ℕ} (d : DynIn nc) (g : SegArt nc) (lam : Fin nc → ℚ)
    (i : ℕ) : ℚ :=
  -dotP (d.S i) (mulMV g.E_tilde lam) / g.D

/-- Modelled from the spec: the total joint acceleration of segment `i` given
its parent's acceleration twist `a`, as the sum of the four named
contributions of spec §4.4. -/
def vQddStep {nc : ℕ} (d : DynIn nc) (lam : Fin nc → ℚ) (a : Vec6) (i : ℕ) : ℚ :=
  nullspaceAcc (segAt d i) + parentAccK (segAt d i) a +
    biasAccK d (segAt d i) i + constraintAccK d (segAt d i) lam i

/-- Modelled from the spec: acceleration twists propagated base-to-tip in the
final outward sweep (§4.4); `final_acc k` is the acceleration twist below
segment `k` (`final_acc 0` is the root acceleration). -/
def final_acc {nc : ℕ} (d : DynIn nc) (lam : Fin nc → ℚ) (a0 : Vec6) : ℕ → Vec6
  | 0 => a0
  | k + 1 =>
      let a := final_acc d lam a0 k
      if k < d.ns then
        fun r => a r + d.Cb k r + vQddStep d lam a k * d.S k r
      else a

/-- Modelled from the spec: joint acceleration of segment `i` produced by the
final outward sweep (`final_upwards_sweep`, header line 127). -/
def final_upwards_qdd {nc : ℕ} (d : DynIn nc) (lam : Fin nc → ℚ) (a0 : Vec6)
    (i : ℕ) : ℚ :=
  vQddStep d lam (final_acc d lam a0 i) i

/-- Modelled from the spec: the resulting constraint torque for joint `i`
(header line 71 — the `torques` output), the constraint force `E_tilde·λ`
projected onto the joint's motion subspace. -/
def final_upwards_tau {nc : ℕ} (d : DynIn nc) (lam : Fin nc → ℚ) (i : ℕ) : ℚ :=
  dotP (d.S i) (mulMV (segAt d i).E_tilde lam)

/-- Modelled from the spec: input of the independently stated unconstrained
recursive forward-dynamics solution (spec §8, first bullet) — the same chain,
torques, velocities and external forces, with no constraint data at all. -/
structure AbaIn where
  ns : ℕ
  S : ℕ → Vec6
  Hrb : ℕ → Mat6
  Uw : ℕ → Vec6
  Cb : ℕ → Vec6
  tau : ℕ → ℚ

/-- The unconstrained input carrying the same chain, torques, velocities and
external forces as a constrained input. -/
def toAba {nc : ℕ} (d : DynIn nc) : AbaIn :=
  ⟨d.ns, d.S, d.Hrb, d.Uw, d.Cb, d.tau⟩

/-- Modelled from the spec: per-segment state of the unconstrained
articulated-body recursion. -/
structure AbaSeg where
  P : Mat6
  PZ : Vec6
  D : ℚ
  R : Vec6
  u : ℚ
  P_tilde : Mat6
  R_tilde : Vec6

/-- Modelled from the spec: one step of the unconstrained inward recursion —
the standard articulated-body reduction with no constraint terms. -/
def mkAba (d : AbaIn) (i : ℕ) (Pin : Mat6) (Rin : Vec6) : AbaSeg :=
  let P : Mat6 := fun r c => d.Hrb i r c + Pin r c
  let PZ : Vec6 := mulMV P (d.S i)
  let D : ℚ := dotP (d.S i) PZ
  let R : Vec6 := fun r => d.Uw i r + Rin r
  let PC : Vec6 := mulMV P (d.Cb i)
  let u : ℚ := d.tau i - dotP (d.S i) (fun r => R r + PC r)
  let P_tilde : Mat6 := fun r c => P r c - PZ r * PZ c / D
  let R_tilde : Vec6 := fun r => R r + PC r + PZ r * (u / D)
  ⟨P, PZ, D, R, u, P_tilde, R_tilde⟩

/-- Modelled from the spec: the unconstrained inward recursion, tip-to-base. -/
def aba_from (d : AbaIn) : ℕ → ℕ → AbaSeg
  | 0, i => mkAba d i 0 0
  | fuel + 1, i =>
      if i + 1 < d.ns then
        mkAba d i (aba_from d fuel (i + 1)).P_tilde (aba_from d fuel (i + 1)).R_tilde
      else mkAba d i 0 0

/-- Modelled from the spec: the unconstrained articulated record of segment
`i`. -/
def abaAt (d : AbaIn) (i : ℕ) : AbaSeg := aba_from d (d.ns - (i + 1)) i

/-- Modelled from the spec: joint acceleration of segment `i` in the
unconstrained recursion given the parent acceleration twist `a`. -/
def abaQddStep (d : AbaIn) (a : Vec6) (i : ℕ) : ℚ :=
  ((abaAt d i).u - dotP (abaAt d i).PZ a - dotP (abaAt d i).PZ (d.Cb i)) /
    (abaAt d i).D

/-- Modelled from the spec: acceleration twists of the unconstrained
recursion, base-to-tip. -/
def aba_acc (d : AbaIn) (a0 : Vec6) : ℕ → Vec6
  | 0 => a0
  | k + 1 =>
      let a := aba_acc d a0 k
      if k < d.ns then
        fun r => a r + d.Cb k r + abaQddStep d a k * d.S k r
      else a

/-- Modelled from the spec: joint accelerations of the unconstrained
recursive forward-dynamics solution. -/
def aba_qdd (d : AbaIn) (a0 : Vec6) (i : ℕ) : ℚ :=
  abaQddStep d (aba_acc d a0 i) i

/-- The shared (constraint-free) fields of one constrained inward-sweep step
agree with the corresponding unconstrained step. -/
theorem mkSeg_mkAba_agree {nc : ℕ} (d : DynIn nc) (i : ℕ) (Pin : Mat6)
    (Rin : Vec6) (Ein : Fin 6 → Fin nc → ℚ) (Min : Fin nc → Fin nc → ℚ)
    (Gin : Fin nc → ℚ) :
    (mkSeg d i ⟨Pin, Rin, Ein, Min, Gin⟩).P = (mkAba (toAba d) i Pin Rin).P ∧
    (mkSeg d i ⟨Pin, Rin, Ein, Min, Gin⟩).PZ = (mkAba (toAba d) i Pin Rin).PZ ∧
    (mkSeg d i ⟨Pin, Rin, Ein, Min, Gin⟩).D = (mkAba (toAba d) i Pin Rin).D ∧
    (mkSeg d i ⟨Pin, Rin, Ein, Min, Gin⟩).R = (mkAba (toAba d) i Pin Rin).R ∧
    (mkSeg d i ⟨Pin, Rin, Ein, Min, Gin⟩).u = (mkAba (toAba d) i Pin Rin).u ∧
    (mkSeg d i ⟨Pin, Rin, Ein, Min, Gin⟩).P_tilde =
      (mkAba (toAba d) i Pin Rin).P_tilde ∧
    (mkSeg d i ⟨Pin, Rin, Ein, Min, Gin⟩).R_tilde =
      (mkAba (toAba d) i Pin Rin).R_tilde :=
  ⟨rfl, rfl, rfl, rfl, rfl, rfl, rfl⟩

/-- The constrained inward sweep and the unconstrained recursion agree on all
shared fields, segment by segment. -/
theorem down_aba_from_agree {nc : ℕ} (d : DynIn nc) :
    ∀ fuel i,
      (downwards_from d fuel i).P = (aba_from (toAba d) fuel i).P ∧
      (downwards_from d fuel i).PZ = (aba_from (toAba d) fuel i).PZ ∧
      (downwards_from d fuel i).D = (aba_from (toAba d) fuel i).D ∧
      (downwards_from d fuel i).R = (aba_from (toAba d) fuel i).R ∧
      (downwards_from d fuel i).u = (aba_from (toAba d) fuel i).u ∧
      (downwards_from d fuel i).P_tilde = (aba_from (toAba d) fuel i).P_tilde ∧
      (downwards_from d fuel i).R_tilde = (aba_from (toAba d) fuel i).R_tilde := by
  intro fuel
  induction fuel with
  | zero =>
      intro i
      exact mkSeg_mkAba_agree d i 0 0 d.alfa 0 0
  | succ fuel ih =>
      intro i
      have hns : (toAba d).ns = d.ns := rfl
      simp only [aba_from, downwards_from, hns]
      by_cases hlt : i + 1 < d.ns
      · simp only [if_pos hlt]
        obtain ⟨_, _, _, _, _, hPt, hRt⟩ := ih (i + 1)
        rw [show childSeed (downwards_from d fuel (i + 1)) =
              (⟨(aba_from (toAba d) fuel (i + 1)).P_tilde,
                (aba_from (toAba d) fuel (i + 1)).R_tilde,
                (downwards_from d fuel (i + 1)).E_tilde,
                (downwards_from d fuel (i + 1)).Mm,
                (downwards_from d fuel (i + 1)).G⟩ : SegIn nc) from by
            simp [childSeed, hPt, hRt]]
        exact mkSeg_mkAba_agree d i _ _ _ _ _
      · simp only [if_neg hlt]
        exact mkSeg_mkAba_agree d i 0 0 d.alfa 0 0

/-- Dotting any vector with the zero vector gives zero. -/
theorem dotP_zero_right {n : ℕ} (x : Fin n → ℚ) : dotP x 0 = 0 := by
  simp [dotP]

/-- With zero constraints the constraint-force acceleration contribution
vanishes. -/
theorem constraintAccK_eq_zero {nc : ℕ} (h : nc = 0) (d : DynIn nc)
    (g : SegArt nc) (lam : Fin nc → ℚ) (i : ℕ) :
    constraintAccK d g lam i = 0 := by
  unfold constraintAccK
  rw [mulMV_of_cols_eq_zero h, dotP_zero_right]
  simp

/-- The shared fields of `segAt` agree with the unconstrained `abaAt`. -/
theorem segAt_abaAt_agree {nc : ℕ} (d : DynIn nc) (i : ℕ) :
    (segAt d i).PZ = (abaAt (toAba d) i).PZ ∧
    (segAt d i).D = (abaAt (toAba d) i).D ∧
    (segAt d i).u = (abaAt (toAba d) i).u := by
  have h := down_aba_from_agree d (d.ns - (i + 1)) i
  exact ⟨h.2.1, h.2.2.1, h.2.2.2.2.1⟩

/-- With zero constraints, one step of the constrained final sweep computes
exactly the unconstrained acceleration step. -/
theorem vQddStep_eq_abaQddStep {nc : ℕ} (h : nc = 0) (d : DynIn nc)
    (lam : Fin nc → ℚ) (a : Vec6) (i : ℕ) :
    vQddStep d lam a i = abaQddStep (toAba d) a i := by
  obtain ⟨hPZ, hD, hu⟩ := segAt_abaAt_agree d i
  unfold vQddStep nullspaceAcc parentAccK biasAccK abaQddStep
  rw [constraintAccK_eq_zero h, hPZ, hD, hu]
  have hCb : (toAba d).Cb = d.Cb := rfl
  rw [hCb, sub_div, sub_div]
  ring

/-- With zero constraints the propagated acceleration twists of the final
sweep equal those of the unconstrained recursion. -/
theorem final_acc_eq_aba_acc {nc : ℕ} (h : nc = 0) (d : DynIn nc)
    (lam : Fin nc → ℚ) (a0 : Vec6) :
    ∀ k, final_acc d lam a0 k = aba_acc (toAba d) a0 k := by
  intro k
  induction k with
  | zero => rfl
  | succ k ih =>
      have hns : (toAba d).ns = d.ns := rfl
      simp only [final_acc, aba_acc, hns]
      by_cases hk : k < d.ns
      · rw [if_pos hk, if_pos hk, ih]
        funext r
        rw [vQddStep_eq_abaQddStep h]
        rfl
      · rw [if_neg hk, if_neg hk]
        exact ih

/-- With zero constraints the constrained solver's joint accelerations equal
the unconstrained recursive forward-dynamics solution on the same data, and
its constraint torques are identically zero. -/
theorem nc0_refines_aba {nc : ℕ} (h : nc = 0) (d : DynIn nc)
    (lam : Fin nc → ℚ) (a0 : Vec6) :
    (∀ i, final_upwards_qdd d lam a0 i = aba_qdd (toAba d) a0 i) ∧
    (∀ i, final_upwards_tau d lam i = 0) := by
  constructor
  · intro i
    unfold final_upwards_qdd aba_qdd
    rw [final_acc_eq_aba_acc h, vQddStep_eq_abaQddStep h]
  · intro i
    unfold final_upwards_tau
    rw [mulMV_of_cols_eq_zero h, dotP_zero_right]

/-!
## Constraint calculation (spec §4.3)

Modelled from the spec: `constraint_calculation` (header line 122) solves the
base-level system `M_0 · λ = beta − G` through a singular-value decomposition
`M_0 = U·S·Vᵀ` supplied by the external linear-algebra collaborator (spec §1
places the SVD primitive out of scope), as `λ = V · S⁺ · Uᵀ · (beta − G)`
with singular values at or below a fixed relative threshold treated as zero.
-/

/-- Modelled from the spec: the fixed relative truncation threshold of the
robust pseudo-inverse (spec §4.3). -/
def svdEps : ℚ := 1 / 1000000

/-- Largest entry of the singular-value vector (at least `0`). -/
def maxSing {nc : ℕ} (s : Fin nc → ℚ) : ℚ :=
  ((List.finRange nc).map s).foldr max 0

/-- Modelled from the spec: the thresholded pseudo-inverse diagonal `S⁺` —
a singular value at or below `svdEps * maxSing s` is treated as zero,
otherwise its reciprocal is taken. -/
def pinvDiag {nc : ℕ} (s : Fin nc → ℚ) (j : Fin nc) : ℚ :=
  if s j ≤ svdEps * maxSing s then 0 else 1 / s j

/-- Modelled from the spec: `constraint_calculation` — the constraint-force
magnitudes `λ = V · S⁺ · Uᵀ · (beta − G)` (header line 122, spec §4.3). -/
def constraint_calculation {nc : ℕ} (Um Vm : Fin nc → Fin nc → ℚ)
    (s beta G : Fin nc → ℚ) : Fin nc → ℚ :=
  mulMV Vm (fun j => pinvDiag s j * dotP (fun i2 => Um i2 j) (fun i2 => beta i2 - G i2))

/-- Folding `max` over a list starting from `0` never goes below `0`. -/
theorem foldr_max_nonneg : ∀ l : List ℚ, 0 ≤ l.foldr max 0
  | [] => le_refl 0
  | x :: l => le_trans (foldr_max_nonneg l) (le_max_right x (l.foldr max 0))

/-- The largest singular value is nonnegative. -/
theorem maxSing_nonneg {nc : ℕ} (s : Fin nc → ℚ) : 0 ≤ maxSing s :=
  foldr_max_nonneg _

/-- C2: given a singular-value decomposition `M_0 = U·S·Vᵀ` of the base-level
`nc×nc` matrix, `constraint_calculation` computes the constraint-force
magnitudes as `λ = V · S⁺ · Uᵀ · (beta − G)`; singular values at or below the
fixed relative threshold contribute nothing (their pseudo-inverse entry is
zero), and a reciprocal is only ever taken of a singular value strictly above
the (nonnegative) threshold — hence strictly positive — so `λ` stays finite
even when `M_0` is singular, e.g. for two identical constraint directions
with conflicting targets. -/
theorem constraint_calculation_pinv (nc : ℕ) (M0 Um Vm : Fin nc → Fin nc → ℚ)
    (s beta G : Fin nc → ℚ)
    (hsvd : ∀ k l, M0 k l = ∑ j, Um k j * s j * Vm l j) :
    (∀ k, constraint_calculation Um Vm s beta G k =
        ∑ j, Vm k j * (pinvDiag s j * ∑ i2, Um i2 j * (beta i2 - G i2))) ∧
    (∀ j, s j ≤ svdEps * maxSing s → pinvDiag s j = 0) ∧
    (∀ j, pinvDiag s j ≠ 0 → svdEps * maxSing s < s j ∧ 0 < s j) := by
  refine ⟨fun k => rfl, fun j hj => if_pos hj, fun j hj => ?_⟩
  by_cases hle : s j ≤ svdEps * maxSing s
  · exact absurd (if_pos hle) hj
  · have hlt : svdEps * maxSing s < s j := lt_of_not_le hle
    have hthr : 0 ≤ svdEps * maxSing s :=
      mul_nonneg (by norm_num [svdEps]) (maxSing_nonneg s)
    exact ⟨hlt, lt_of_le_of_lt hthr hlt⟩

/-- Concrete singular-matrix input for `constraint_calculation_pinv`: the
all-ones 2×2 base matrix arising from two identical constraint directions. -/
def M0sing : Fin 2 → Fin 2 → ℚ := fun _ _ => 1

/-- A rational factorisation `M0sing = U·S·Vᵀ` with singular values `(2, 0)`. -/
def UmSing : Fin 2 → Fin 2 → ℚ := fun _ j => if j = 0 then 1 else 0

/-- Singular values of `M0sing` in the factorisation: `2` and `0`. -/
def sSing : Fin 2 → ℚ := fun j => if j = 0 then 2 else 0

/-- Right factor of the `M0sing` factorisation. -/
def VmSing : Fin 2 → Fin 2 → ℚ := fun _ j => if j = 0 then 1 / 2 else 0

/-- Conflicting constraint targets for the two identical directions. -/
def betaSing : Fin 2 → ℚ := fun i2 => if i2 = 0 then 1 else 5

/-- Closed instance of `constraint_calculation_pinv` on the singular
`M0sing` with conflicting targets: the zero singular value is truncated and
the computed `λ` is the finite vector `(3/2, 3/2)`. -/
theorem constraint_calculation_pinv_witness :
    pinvDiag sSing 1 = 0 ∧
    constraint_calculation UmSing VmSing sSing betaSing 0 0 = 3 / 2 ∧
    constraint_calculation UmSing VmSing sSing betaSing 0 1 = 3 / 2 := by
  have hm : maxSing sSing = 2 := by rfl
  have hsvd : ∀ k l, M0sing k l = ∑ j, UmSing k j * sSing j * VmSing l j := by
    intro k l
    norm_num [M0sing, UmSing, sSing, VmSing, Fin.sum_univ_two]
  have hth : sSing 1 ≤ svdEps * maxSing sSing := by
    rw [hm]
    norm_num [sSing, svdEps]
  refine ⟨(constraint_calculation_pinv 2 M0sing UmSing VmSing sSing betaSing 0
    hsvd).2.1 1 hth, ?_, ?_⟩ <;>
    norm_num [constraint_calculation, mulMV, dotP, pinvDiag, hm, svdEps,
      UmSing, VmSing, sSing, betaSing, Fin.sum_univ_two, Pi.zero_apply]

/-!
## Solver state and `CartToJnt` (buffer layer)

Modelled from the spec: the constructor (header line 56), the buffer layout
(spec §3 lifecycle), size validation and the four-phase pipeline of
`CartToJnt` (spec §6, §4.1-4.4).  The header's own contract for the return
codes (line 64: "returns 0 when it succeeds, otherwise -1 or -2 for
unmatching matrix and array sizes") governs the emitted codes: `-2` for the
constraint-Jacobian (matrix) column mismatch, `-1` for the array-length
mismatches, checked in the spec's fixed order `q`, `q_dot`, `alfa`, `beta`,
`f_ext` (spec §6/§7).
-/

/-- Modelled from the spec: the external chain collaborator (spec §6
"Collaborator contract") — queryable segment and joint counts, per-segment
motion subspaces and rigid-body inertias, and the outward sweep's bias
wrench/bias acceleration maps as functions of the joint positions,
velocities and external wrenches (spec §4.1 assigns them this role without
closed formulas). -/
structure ChainData where
  nsegs : ℕ
  njoints : ℕ
  S : ℕ → Vec6
  Hrb : ℕ → Mat6
  biasW : (ℕ → ℚ) → (ℕ → ℚ) → (ℕ → Vec6) → ℕ → Vec6
  biasA : (ℕ → ℚ) → (ℕ → ℚ) → (ℕ → Vec6) → ℕ → Vec6

/-- Modelled from the spec: the solver's fixed configuration — the chain,
the cached counts `nj`/`ns`, the constraint count `nc` fixed at
construction, the root acceleration, and the external singular-value
decomposition primitive (spec §1 places the SVD out of scope, so it enters
as a collaborator returning the factors `(U, S, V)` of the given matrix). -/
structure SolverCfg where
  cd : ChainData
  nj : ℕ
  ns : ℕ
  nc : ℕ
  accRoot : Vec6
  svd : (Fin nc → Fin nc → ℚ) →
    ((Fin nc → Fin nc → ℚ) × (Fin nc → ℚ) × (Fin nc → Fin nc → ℚ))

/-- Modelled from the spec: the solver — its configuration plus the
per-segment record table `results` (header line 193). -/
structure SolverState where
  cfg : SolverCfg
  results : List SegRecord

/-- Modelled from the spec: the constructor `ChainHdSolver_Vereshchagin`
(header line 56) — caches `nj`/`ns`, fixes `nc`, and allocates `ns+1`
fresh per-segment records (index 0 is the base). -/
def ChainHdSolver_Vereshchagin (cd : ChainData) (accRoot : Vec6) (nc : ℕ)
    (svd : (Fin nc → Fin nc → ℚ) →
      ((Fin nc → Fin nc → ℚ) × (Fin nc → ℚ) × (Fin nc → Fin nc → ℚ))) :
    SolverState where
  cfg := { cd := cd, nj := cd.njoints, ns := cd.nsegs, nc := nc,
           accRoot := accRoot, svd := svd }
  results := List.replicate (cd.nsegs + 1) (segment_info nc)

/-- Modelled from the spec: `updateInternalDataStructures` (header line 78) —
re-derives `ns`/`nj` from the chain and re-sizes the record table to `ns+1`
fresh records, keeping `nc`. -/
def updateInternalDataStructures (st : SolverState) : SolverState where
  cfg := { st.cfg with nj := st.cfg.cd.njoints, ns := st.cfg.cd.nsegs }
  results := List.replicate (st.cfg.cd.nsegs + 1) (segment_info st.cfg.nc)

/-- Modelled from the spec: the constraint Jacobian argument `alfa` — a
column count plus the 6-D unit constraint-force columns. -/
structure JacIn where
  cols : ℕ
  col : ℕ → Vec6

/-- The four phases of one `CartToJnt` invocation (spec §2 data flow). -/
inductive Phase where
  | outward
  | inward
  | constraintSolve
  | finalOutward
  deriving DecidableEq

/-- Result of one `CartToJnt` call: return code, the two (in-out) output
arrays, the updated solver, and the executed phase trace. -/
structure CartOut where
  code : Int
  qddOut : List ℚ
  tauOut : List ℚ
  stOut : SolverState
  trace : List Phase

/-- Modelled from the spec: assembling the algorithmic input of the sweeps
from the chain and the call arguments (`torques` is in-out: it carries the
applied joint torques on entry, spec §4.2 "prior joint torques"). -/
def dynInOf (cfg : SolverCfg) (q qd tauL : List ℚ) (fext : List Vec6)
    (alfa : JacIn) : DynIn cfg.nc where
  ns := cfg.ns
  S := cfg.cd.S
  Hrb := cfg.cd.Hrb
  Uw := cfg.cd.biasW (fun i => q.getD i 0) (fun i => qd.getD i 0)
    (fun i => fext.getD i 0)
  Cb := cfg.cd.biasA (fun i => q.getD i 0) (fun i => qd.getD i 0)
    (fun i => fext.getD i 0)
  tau := fun i => tauL.getD i 0
  qd := fun i => qd.getD i 0
  alfa := fun r k => alfa.col k.val r

/-- Modelled from the spec: the constraint-force magnitudes of one call —
the base-level matrix `M_0` and vector `G` accumulated by the inward sweep
at segment 0, factored by the external SVD, solved by
`constraint_calculation` (spec §4.3). -/
def lamOf (cfg : SolverCfg) (dyn : DynIn cfg.nc) (betaL : List ℚ) :
    Fin cfg.nc → ℚ :=
  let fac := cfg.svd (segAt dyn 0).Mm
  constraint_calculation fac.1 fac.2.2 fac.2.1
    (fun k => betaL.getD k.val 0) (segAt dyn 0).G

/-- Modelled from the spec: segment twists composed along the chain —
parent twist plus the joint-rate contribution (spec §4.1). -/
def twistSeq {nc : ℕ} (d : DynIn nc) : ℕ → Vec6
  | 0 => 0
  | k + 1 =>
      let a := twistSeq d k
      if k < d.ns then fun r => a r + d.qd k * d.S k r else a

/-- The coordinates of a 6-vector as a list. -/
def vec6List (x : Vec6) : List ℚ := (List.finRange 6).map x

/-- The entries of an `nc`-indexed vector as a list. -/
def finList {n : ℕ} (f : Fin n → ℚ) : List ℚ := (List.finRange n).map f

/-- The rows of a coordinate matrix as a list of lists. -/
def matList {m n : ℕ} (M : Fin m → Fin n → ℚ) : List (List ℚ) :=
  (List.finRange m).map (fun r => finList (M r))

/-- Modelled from the spec: what the outward kinematic sweep stores in the
record of segment `i` (record index `i+1`; index 0 is the base): unit joint
twist, segment twist, bias acceleration twist and bias wrench (spec §4.1). -/
def outStep {nc : ℕ} (d : DynIn nc) (res : List SegRecord) (i : ℕ) :
    List SegRecord :=
  let old := res.getD (i + 1) (segment_info nc)
  res.set (i + 1)
    { old with
      Z := vec6List (d.S i)
      v := vec6List (twistSeq d (i + 1))
      C := vec6List (d.Cb i)
      U := vec6List (d.Uw i) }

/-- Modelled from the spec: what the inward inertia/bias sweep stores in the
record of segment `i` (spec §4.2). -/
def inStep {nc : ℕ} (d : DynIn nc) (res : List SegRecord) (i : ℕ) :
    List SegRecord :=
  let old := res.getD (i + 1) (segment_info nc)
  let g := segAt d i
  res.set (i + 1)
    { old with
      R := vec6List g.R
      D := g.D
      totalBias := g.totalBias
      u := g.u
      E := matList g.E
      E_tilde := matList g.E_tilde
      M := matList g.Mm
      G := finList g.G
      EZ := finList g.EZ }

/-- Modelled from the spec: what the final outward sweep stores in the record
of segment `i` — the acceleration twist and the three per-joint acceleration
contributions it decomposes into (spec §4.4). -/
def finStep {nc : ℕ} (d : DynIn nc) (lam : Fin nc → ℚ) (a0 : Vec6)
    (res : List SegRecord) (i : ℕ) : List SegRecord :=
  let old := res.getD (i + 1) (segment_info nc)
  let g := segAt d i
  res.set (i + 1)
    { old with
      acc := vec6List (final_acc d lam a0 (i + 1))
      nullspaceAccComp := nullspaceAcc g
      constAccComp := constraintAccK d g lam i
      biasAccComp := biasAccK d g i }

/-- One bounded phase loop over the segments: fold the per-segment step over
`0..n-1`, appending the phase tag to the trace at every iteration. -/
def phaseFold (step : List SegRecord → ℕ → List SegRecord) (tag : Phase)
    (n : ℕ) (res : List SegRecord) (tr : List Phase) :
    List SegRecord × List Phase :=
  (List.range n).foldl (fun acc i => (step acc.1 i, acc.2 ++ [tag])) (res, tr)

/-- Modelled from the spec: `initial_upwards_sweep` (header line 112) as a
bounded loop over the `ns` segments. -/
def initial_upwards_sweep {nc : ℕ} (d : DynIn nc) (res : List SegRecord)
    (tr : List Phase) : List SegRecord × List Phase :=
  phaseFold (outStep d) Phase.outward d.ns res tr

/-- Modelled from the spec: `downwards_sweep` (header line 117) as a bounded
loop over the `ns` segments. -/
def downwards_sweep {nc : ℕ} (d : DynIn nc) (res : List SegRecord)
    (tr : List Phase) : List SegRecord × List Phase :=
  phaseFold (inStep d) Phase.inward d.ns res tr

/-- Modelled from the spec: `final_upwards_sweep` (header line 127) as a
bounded loop over the `ns` segments. -/
def final_upwards_sweep {nc : ℕ} (d : DynIn nc) (lam : Fin nc → ℚ)
    (a0 : Vec6) (res : List SegRecord) (tr : List Phase) :
    List SegRecord × List Phase :=
  phaseFold (finStep d lam a0) Phase.finalOutward d.ns res tr

/-- Modelled from the spec: `CartToJnt` (header line 75) — validates the
array sizes in fixed order before touching any output (`q`, `q_dot` against
`nj`; `alfa` columns against `nc`; `beta` against `nc`; `f_ext` against
`ns`), returning `-1`/`-2` per the header's documented contract (line 64)
and leaving the outputs untouched; on success it runs the four phases once,
in order, and fills the outputs (length `nj`). -/
def CartToJnt (st : SolverState) (q q_dot q_dotdot : List ℚ) (alfa : JacIn)
    (beta : List ℚ) (f_ext : List Vec6) (torques : List ℚ) : CartOut :=
  if q.length ≠ st.cfg.nj then ⟨-1, q_dotdot, torques, st, []⟩
  else if q_dot.length ≠ st.cfg.nj then ⟨-1, q_dotdot, torques, st, []⟩
  else if alfa.cols ≠ st.cfg.nc then ⟨-2, q_dotdot, torques, st, []⟩
  else if beta.length ≠ st.cfg.nc then ⟨-1, q_dotdot, torques, st, []⟩
  else if f_ext.length ≠ st.cfg.ns then ⟨-1, q_dotdot, torques, st, []⟩
  else
    let dyn := dynInOf st.cfg q q_dot torques f_ext alfa
    let lam := lamOf st.cfg dyn beta
    let p1 := initial_upwards_sweep dyn st.results []
    let p2 := downwards_sweep dyn p1.1 p1.2
    let p3 : List SegRecord × List Phase := (p2.1, p2.2 ++ [Phase.constraintSolve])
    let p4 := final_upwards_sweep dyn lam st.cfg.accRoot p3.1 p3.2
    ⟨0,
      (List.range st.cfg.nj).map (fun i => final_upwards_qdd dyn lam st.cfg.accRoot i),
      (List.range st.cfg.nj).map (fun i => final_upwards_tau dyn lam i),
      { st with results := p4.1 }, p4.2⟩

/-- The trace component of a phase fold: one tag per iteration, appended in
order after the incoming trace. -/
theorem foldl_trace_eq (step : List SegRecord → ℕ → List SegRecord)
    (tag : Phase) :
    ∀ (l : List ℕ) (res : List SegRecord) (tr : List Phase),
      ((l.foldl (fun acc i => (step acc.1 i, acc.2 ++ [tag])) (res, tr)).2 =
        tr ++ List.replicate l.length tag)
  | [], res, tr => by simp
  | a :: l, res, tr => by
      simp only [List.foldl_cons, List.length_cons, List.replicate_succ]
      rw [foldl_trace_eq step tag l (step res a) (tr ++ [tag])]
      simp

/-- `phaseFold` over `n` segments appends exactly `n` copies of its phase
tag to the trace. -/
theorem phaseFold_trace (step : List SegRecord → ℕ → List SegRecord)
    (tag : Phase) (n : ℕ) (res : List SegRecord) (tr : List Phase) :
    (phaseFold step tag n res tr).2 = tr ++ List.replicate n tag := by
  unfold phaseFold
  rw [foldl_trace_eq step tag (List.range n) res tr, List.length_range]

/-- An invariant of the record table preserved by every step is preserved by
the whole phase fold. -/
theorem foldl_fst_pres (step : List SegRecord → ℕ → List SegRecord)
    (tag : Phase) (P : List SegRecord → Prop)
    (hstep : ∀ r i, P r → P (step r i)) :
    ∀ (l : List ℕ) (res : List SegRecord) (tr : List Phase), P res →
      P ((l.foldl (fun acc i => (step acc.1 i, acc.2 ++ [tag])) (res, tr)).1)
  | [], res, tr, h => h
  | a :: l, res, tr, h => by
      simp only [List.foldl_cons]
      exact foldl_fst_pres step tag P hstep l (step res a) (tr ++ [tag])
        (hstep res a h)

/-- Invariant preservation for `phaseFold`. -/
theorem phaseFold_pres (step : List SegRecord → ℕ → List SegRecord)
    (tag : Phase) (P : List SegRecord → Prop)
    (hstep : ∀ r i, P r → P (step r i)) (n : ℕ) (res : List SegRecord)
    (tr : List Phase) (h : P res) : P ((phaseFold step tag n res tr).1) :=
  foldl_fst_pres step tag P hstep (List.range n) res tr h

/-- The constraint buffers of a record are sized by `nc` (and the
unit-constraint-force matrices have 6 rows). -/
def bufferSized (nc : ℕ) (r : SegRecord) : Prop :=
  r.E.length = 6 ∧ (∀ row ∈ r.E, row.length = nc) ∧
  r.E_tilde.length = 6 ∧ (∀ row ∈ r.E_tilde, row.length = nc) ∧
  r.M.length = nc ∧ (∀ row ∈ r.M, row.length = nc) ∧
  r.G.length = nc ∧ r.EZ.length = nc

instance (nc : ℕ) (r : SegRecord) : Decidable (bufferSized nc r) := by
  unfold bufferSized
  infer_instance

/-- A fresh record is correctly sized. -/
theorem bufferSized_segment_info (nc : ℕ) : bufferSized nc (segment_info nc) := by
  refine ⟨by simp [segment_info], ?_, by simp [segment_info], ?_,
    by simp [segment_info], ?_, by simp [segment_info], by simp [segment_info]⟩ <;>
    intro row hrow <;>
    rw [List.eq_of_mem_replicate hrow] <;>
    simp

/-- Reading a record with a sized default from a table of sized records gives
a sized record. -/
theorem bufferSized_getD (nc : ℕ) (res : List SegRecord) (k : ℕ)
    (h : ∀ r ∈ res, bufferSized nc r) :
    bufferSized nc (res.getD k (segment_info nc)) := by
  rcases hlt : res.get? k with _ | x
  · rw [List.getD, hlt]
    exact bufferSized_segment_info nc
  · rw [List.getD, hlt]
    exact h x (List.get?_mem hlt)

/-- Membership in a table after `List.set`. -/
theorem mem_set_cases {r : SegRecord} {res : List SegRecord} {k : ℕ}
    {a : SegRecord} (h : r ∈ res.set k a) : r = a ∨ r ∈ res := by
  rcases List.mem_or_eq_of_mem_set h with h' | h'
  · exact Or.inr h'
  · exact Or.inl h'

/-- `finList` has the expected length. -/
theorem finList_length {n : ℕ} (f : Fin n → ℚ) : (finList f).length = n := by
  simp [finList]

/-- `matList` has the expected row count. -/
theorem matList_length {m n : ℕ} (M : Fin m → Fin n → ℚ) :
    (matList M).length = m := by
  simp [matList]

/-- Every row of `matList` has the expected length. -/
theorem matList_row_length {m n : ℕ} (M : Fin m → Fin n → ℚ) (row : List ℚ)
    (h : row ∈ matList M) : row.length = n := by
  simp only [matList, List.mem_map] at h
  obtain ⟨r, -, rfl⟩ := h
  exact finList_length (M r)

/-- The table invariant tracked through a `CartToJnt` call: fixed length and
sized constraint buffers. -/
def tableInv (nc : ℕ) (len : ℕ) (res : List SegRecord) : Prop :=
  res.length = len ∧ ∀ r ∈ res, bufferSized nc r

/-- `outStep` preserves the table invariant. -/
theorem outStep_pres {nc : ℕ} (d : DynIn nc) (len : ℕ) (res : List SegRecord)
    (i : ℕ) (h : tableInv nc len res) : tableInv nc len (outStep d res i) := by
  obtain ⟨hlen, hsz⟩ := h
  refine ⟨by simp [outStep, hlen], ?_⟩
  intro r hr
  rcases mem_set_cases hr with rfl | hr'
  · have hold := bufferSized_getD nc res (i + 1) hsz
    exact hold
  · exact hsz r hr'

/-- `inStep` preserves the table invariant. -/
theorem inStep_pres {nc : ℕ} (d : DynIn nc) (len : ℕ) (res : List SegRecord)
    (i : ℕ) (h : tableInv nc len res) : tableInv nc len (inStep d res i) := by
  obtain ⟨hlen, hsz⟩ := h
  refine ⟨by simp [inStep, hlen], ?_⟩
  intro r hr
  rcases mem_set_cases hr with rfl | hr'
  · exact ⟨matList_length _, fun row hrow => matList_row_length _ row hrow,
      matList_length _, fun row hrow => matList_row_length _ row hrow,
      matList_length _, fun row hrow => matList_row_length _ row hrow,
      finList_length _, finList_length _⟩
  · exact hsz r hr'

/-- `finStep` preserves the table invariant. -/
theorem finStep_pres {nc : ℕ} (d : DynIn nc) (lam : Fin nc → ℚ) (a0 : Vec6)
    (len : ℕ) (res : List SegRecord) (i : ℕ) (h : tableInv nc len res) :
    tableInv nc len (finStep d lam a0 res i) := by
  obtain ⟨hlen, hsz⟩ := h
  refine ⟨by simp [finStep, hlen], ?_⟩
  intro r hr
  rcases mem_set_cases hr with rfl | hr'
  · have hold := bufferSized_getD nc res (i + 1) hsz
    exact hold
  · exact hsz r hr'

/-- C3: `CartToJnt` validates all array sizes before mutating any output
(`q`, `q_dot` length `nj`; `alfa` columns `nc`; `beta` length `nc`; `f_ext`
length `ns`); on any mismatch it returns a negative code and leaves
`q_dotdot` and `torques` completely unchanged; it returns `0` iff all sizes
match, in which case `q_dotdot` and `torques` are filled with length `nj`. -/
theorem CartToJnt_size_validation (st : SolverState) (q q_dot q_dotdot : List ℚ)
    (alfa : JacIn) (beta : List ℚ) (f_ext : List Vec6) (torques : List ℚ) :
    ((CartToJnt st q q_dot q_dotdot alfa beta f_ext torques).code = 0 ↔
      (q.length = st.cfg.nj ∧ q_dot.length = st.cfg.nj ∧
        alfa.cols = st.cfg.nc ∧ beta.length = st.cfg.nc ∧
        f_ext.length = st.cfg.ns)) ∧
    ((CartToJnt st q q_dot q_dotdot alfa beta f_ext torques).code ≠ 0 →
      (CartToJnt st q q_dot q_dotdot alfa beta f_ext torques).code < 0 ∧
      (CartToJnt st q q_dot q_dotdot alfa beta f_ext torques).qddOut = q_dotdot ∧
      (CartToJnt st q q_dot q_dotdot alfa beta f_ext torques).tauOut = torques) ∧
    ((CartToJnt st q q_dot q_dotdot alfa beta f_ext torques).code = 0 →
      (CartToJnt st q q_dot q_dotdot alfa beta f_ext torques).qddOut.length = st.cfg.nj ∧
      (CartToJnt st q q_dot q_dotdot alfa beta f_ext torques).tauOut.length = st.cfg.nj) := by
  unfold CartToJnt
  split_ifs with h1 h2 h3 h4 h5 <;> refine ⟨?_, ?_, ?_⟩ <;> simp_all

/-- Concrete one-segment, one-joint chain used for closed instances. -/
def cdW : ChainData where
  nsegs := 1
  njoints := 1
  S := fun _ => 0
  Hrb := fun _ => 0
  biasW := fun _ _ _ _ => 0
  biasA := fun _ _ _ _ => 0

/-- Trivial SVD collaborator for 1×1 matrices. -/
def svdW : (Fin 1 → Fin 1 → ℚ) →
    ((Fin 1 → Fin 1 → ℚ) × (Fin 1 → ℚ) × (Fin 1 → Fin 1 → ℚ)) :=
  fun M => (fun _ _ => 1, fun k => M k k, fun _ _ => 1)

/-- Concrete solver with `nj = ns = nc = 1`. -/
def stW : SolverState := ChainHdSolver_Vereshchagin cdW 0 1 svdW

/-- Concrete constraint Jacobian with one column. -/
def jacW : JacIn where
  cols := 1
  col := fun _ => 0

/-- C4 counterexample: the claim "each validated argument has its own
distinct negative error code" fails on the header's documented contract
(line 64: only `-1` or `-2`): a call failing validation on `q` (here `q` has
length 0 ≠ nj = 1, all other arguments correctly sized) and a call failing
validation on `q_dot` (here `q` is correct and `q_dot` has length 0) return
the same code `-1`. -/
theorem CartToJnt_codes_collide :
    (CartToJnt stW [] [0] [0] jacW [0] [0] [0]).code = -1 ∧
    (CartToJnt stW [0] [] [0] jacW [0] [0] [0]).code = -1 ∧
    (CartToJnt stW [] [0] [0] jacW [0] [0] [0]).code =
      (CartToJnt stW [0] [] [0] jacW [0] [0] [0]).code := by
  refine ⟨rfl, rfl, rfl⟩

/-- C4 amended: `CartToJnt` distinguishes only the two documented classes of
size mismatch (header line 64): the constraint-Jacobian (matrix) column
mismatch returns `-2` — reached when `q` and `q_dot` already validated — and
every array-length mismatch (`q`, `q_dot`, `beta`, `f_ext`) returns `-1`;
calls failing on different array arguments may return the same code. -/
theorem CartToJnt_code_classes (st : SolverState) (q q_dot q_dotdot : List ℚ)
    (alfa : JacIn) (beta : List ℚ) (f_ext : List Vec6) (torques : List ℚ) :
    ((CartToJnt st q q_dot q_dotdot alfa beta f_ext torques).code = -2 ↔
      (q.length = st.cfg.nj ∧ q_dot.length = st.cfg.nj ∧
        alfa.cols ≠ st.cfg.nc)) ∧
    ((CartToJnt st q q_dot q_dotdot alfa beta f_ext torques).code = -1 ↔
      (q.length ≠ st.cfg.nj ∨
        (q.length = st.cfg.nj ∧ q_dot.length ≠ st.cfg.nj) ∨
        (q.length = st.cfg.nj ∧ q_dot.length = st.cfg.nj ∧
          alfa.cols = st.cfg.nc ∧ beta.length ≠ st.cfg.nc) ∨
        (q.length = st.cfg.nj ∧ q_dot.length = st.cfg.nj ∧
          alfa.cols = st.cfg.nc ∧ beta.length = st.cfg.nc ∧
          f_ext.length ≠ st.cfg.ns))) := by
  unfold CartToJnt
  split_ifs with h1 h2 h3 h4 h5 <;> constructor <;> simp_all

/-- `CartToJnt` never changes the solver configuration (chain, counts,
root acceleration, SVD collaborator). -/
theorem CartToJnt_cfg_eq (st : SolverState) (q q_dot q_dotdot : List ℚ)
    (alfa : JacIn) (beta : List ℚ) (f_ext : List Vec6) (torques : List ℚ) :
    (CartToJnt st q q_dot q_dotdot alfa beta f_ext torques).stOut.cfg = st.cfg := by
  unfold CartToJnt
  split_ifs <;> rfl

/-- The return code and output arrays of `CartToJnt` depend on the solver
only through its configuration. -/
theorem CartToJnt_out_congr (st st' : SolverState) (q q_dot q_dotdot : List ℚ)
    (alfa : JacIn) (beta : List ℚ) (f_ext : List Vec6) (torques : List ℚ)
    (h : st'.cfg = st.cfg) :
    (CartToJnt st' q q_dot q_dotdot alfa beta f_ext torques).code =
      (CartToJnt st q q_dot q_dotdot alfa beta f_ext torques).code ∧
    (CartToJnt st' q q_dot q_dotdot alfa beta f_ext torques).qddOut =
      (CartToJnt st q q_dot q_dotdot alfa beta f_ext torques).qddOut ∧
    (CartToJnt st' q q_dot q_dotdot alfa beta f_ext torques).tauOut =
      (CartToJnt st q q_dot q_dotdot alfa beta f_ext torques).tauOut := by
  unfold CartToJnt
  rw [h]
  split_ifs <;> exact ⟨rfl, rfl, rfl⟩

/-- C6: `CartToJnt` is deterministic — two consecutive calls with identical
inputs and no intervening `updateInternalDataStructures` return the same
code and the same joint accelerations and torques. -/
theorem CartToJnt_deterministic (st : SolverState) (q q_dot q_dotdot : List ℚ)
    (alfa : JacIn) (beta : List ℚ) (f_ext : List Vec6) (torques : List ℚ) :
    (CartToJnt (CartToJnt st q q_dot q_dotdot alfa beta f_ext torques).stOut
        q q_dot q_dotdot alfa beta f_ext torques).code =
      (CartToJnt st q q_dot q_dotdot alfa beta f_ext torques).code ∧
    (CartToJnt (CartToJnt st q q_dot q_dotdot alfa beta f_ext torques).stOut
        q q_dot q_dotdot alfa beta f_ext torques).qddOut =
      (CartToJnt st q q_dot q_dotdot alfa beta f_ext torques).qddOut ∧
    (CartToJnt (CartToJnt st q q_dot q_dotdot alfa beta f_ext torques).stOut
        q q_dot q_dotdot alfa beta f_ext torques).tauOut =
      (CartToJnt st q q_dot q_dotdot alfa beta f_ext torques).tauOut :=
  CartToJnt_out_congr st _ q q_dot q_dotdot alfa beta f_ext torques
    (CartToJnt_cfg_eq st q q_dot q_dotdot alfa beta f_ext torques)

/-- Through one `CartToJnt` call the record table keeps its length and its
per-record constraint-buffer sizes. -/
theorem CartToJnt_table_inv (st : SolverState) (q q_dot q_dotdot : List ℚ)
    (alfa : JacIn) (beta : List ℚ) (f_ext : List Vec6) (torques : List ℚ)
    (h : ∀ r ∈ st.results, bufferSized st.cfg.nc r) :
    tableInv st.cfg.nc st.results.length
      (CartToJnt st q q_dot q_dotdot alfa beta f_ext torques).stOut.results := by
  unfold CartToJnt
  split_ifs
  · exact ⟨rfl, h⟩
  · exact ⟨rfl, h⟩
  · exact ⟨rfl, h⟩
  · exact ⟨rfl, h⟩
  · exact ⟨rfl, h⟩
  · show tableInv st.cfg.nc st.results.length (final_upwards_sweep _ _ _ _ _).1
    unfold final_upwards_sweep downwards_sweep initial_upwards_sweep
    exact phaseFold_pres _ _ _ (fun r i => finStep_pres _ _ _ _ r i) _ _ _
      (phaseFold_pres _ _ _ (fun r i => inStep_pres _ _ r i) _ _ _
        (phaseFold_pres _ _ _ (fun r i => outStep_pres _ _ r i) _ _ _ ⟨rfl, h⟩))

/-- C7: after construction or `updateInternalDataStructures` the `results`
table holds exactly `ns+1` records (index 0 the base) whose constraint
buffers are sized by the `nc` fixed at construction, and `CartToJnt` never
changes the size of `results`, of any record's constraint buffers, or of the
configuration — it only mutates buffer contents in place. -/
theorem solver_buffers_fixed (cd : ChainData) (accRoot : Vec6) (nc : ℕ)
    (svd : (Fin nc → Fin nc → ℚ) →
      ((Fin nc → Fin nc → ℚ) × (Fin nc → ℚ) × (Fin nc → Fin nc → ℚ)))
    (st : SolverState) (q q_dot q_dotdot : List ℚ) (alfa : JacIn)
    (beta : List ℚ) (f_ext : List Vec6) (torques : List ℚ)
    (h : ∀ r ∈ st.results, bufferSized st.cfg.nc r) :
    (ChainHdSolver_Vereshchagin cd accRoot nc svd).results.length = cd.nsegs + 1 ∧
    (ChainHdSolver_Vereshchagin cd accRoot nc svd).cfg.nc = nc ∧
    (∀ r ∈ (ChainHdSolver_Vereshchagin cd accRoot nc svd).results,
      bufferSized nc r) ∧
    (updateInternalDataStructures st).results.length = st.cfg.cd.nsegs + 1 ∧
    (updateInternalDataStructures st).cfg.nc = st.cfg.nc ∧
    (∀ r ∈ (updateInternalDataStructures st).results,
      bufferSized st.cfg.nc r) ∧
    (CartToJnt st q q_dot q_dotdot alfa beta f_ext torques).stOut.results.length =
      st.results.length ∧
    (∀ r ∈ (CartToJnt st q q_dot q_dotdot alfa beta f_ext torques).stOut.results,
      bufferSized st.cfg.nc r) ∧
    (CartToJnt st q q_dot q_dotdot alfa beta f_ext torques).stOut.cfg = st.cfg := by
  refine ⟨by simp [ChainHdSolver_Vereshchagin], rfl, ?_,
    by simp [updateInternalDataStructures], rfl, ?_,
    (CartToJnt_table_inv st q q_dot q_dotdot alfa beta f_ext torques h).1,
    (CartToJnt_table_inv st q q_dot q_dotdot alfa beta f_ext torques h).2,
    CartToJnt_cfg_eq st q q_dot q_dotdot alfa beta f_ext torques⟩
  · intro r hr
    rw [List.eq_of_mem_replicate
      (show r ∈ List.replicate (cd.nsegs + 1) (segment_info nc) from hr)]
    exact bufferSized_segment_info nc
  · intro r hr
    rw [List.eq_of_mem_replicate
      (show r ∈ List.replicate (st.cfg.cd.nsegs + 1) (segment_info st.cfg.nc) from hr)]
    exact bufferSized_segment_info st.cfg.nc

/-- Closed instance of `solver_buffers_fixed`: on the concrete one-segment
solver a (failing) call leaves the table length `ns+1 = 2` unchanged. -/
theorem solver_buffers_fixed_witness :
    (CartToJnt stW [] [0] [0] jacW [0] [0] [0]).stOut.results.length =
      stW.results.length ∧ stW.results.length = 2 := by
  have h : ∀ r ∈ stW.results, bufferSized stW.cfg.nc r := by
    intro r hr
    rw [List.eq_of_mem_replicate
      (show r ∈ List.replicate 2 (segment_info 1) from hr)]
    exact bufferSized_segment_info 1
  exact ⟨(solver_buffers_fixed cdW 0 1 svdW stW [] [0] [0] jacW [0] [0] [0]
    h).2.2.2.2.2.2.1, rfl⟩

/-- C8: every successful `CartToJnt` call executes exactly one pass of each
of the four phases in strict order — outward kinematic sweep, inward
inertia/bias sweep, constraint solve, final outward sweep — each sweep a
bounded loop of exactly `ns` iterations (one trace tag per iteration) and
the constraint solve a single `nc×nc` decomposition step; a failed call
executes none of them.  Termination holds by construction: every phase is a
structurally bounded fold. -/
theorem CartToJnt_four_phases (st : SolverState) (q q_dot q_dotdot : List ℚ)
    (alfa : JacIn) (beta : List ℚ) (f_ext : List Vec6) (torques : List ℚ) :
    ((CartToJnt st q q_dot q_dotdot alfa beta f_ext torques).code = 0 →
      (CartToJnt st q q_dot q_dotdot alfa beta f_ext torques).trace =
        List.replicate st.cfg.ns Phase.outward ++
          (List.replicate st.cfg.ns Phase.inward ++
            ([Phase.constraintSolve] ++
              List.replicate st.cfg.ns Phase.finalOutward))) ∧
    ((CartToJnt st q q_dot q_dotdot alfa beta f_ext torques).code ≠ 0 →
      (CartToJnt st q q_dot q_dotdot alfa beta f_ext torques).trace = []) := by
  unfold CartToJnt
  split_ifs
  all_goals refine ⟨fun hc => ?_, fun hc => ?_⟩
  · simp at hc
  · rfl
  · simp at hc
  · rfl
  · simp at hc
  · rfl
  · simp at hc
  · rfl
  · simp at hc
  · rfl
  · show (final_upwards_sweep _ _ _ _ _).2 = _
    unfold final_upwards_sweep downwards_sweep initial_upwards_sweep
    rw [phaseFold_trace, phaseFold_trace, phaseFold_trace]
    simp [dynInOf]
  · exact absurd rfl hc

/-- Closed instance of `CartToJnt_four_phases`: the concrete one-segment
solver call succeeds and its trace is one outward pass, one inward pass, one
constraint solve, one final pass. -/
theorem CartToJnt_four_phases_witness :
    (CartToJnt stW [0] [0] [0] jacW [0] [0] [0]).code = 0 ∧
    (CartToJnt stW [0] [0] [0] jacW [0] [0] [0]).trace =
      List.replicate 1 Phase.outward ++
        (List.replicate 1 Phase.inward ++
          ([Phase.constraintSolve] ++ List.replicate 1 Phase.finalOutward)) := by
  have hc : (CartToJnt stW [0] [0] [0] jacW [0] [0] [0]).code = 0 := rfl
  exact ⟨hc, (CartToJnt_four_phases stW [0] [0] [0] jacW [0] [0] [0]).1 hc⟩

/-- C1: with `nc = 0` constraints, a successful `CartToJnt` call returns
exactly the joint accelerations of the independently defined unconstrained
recursive forward-dynamics solution (`aba_qdd`, built from the same chain,
torques, velocities and external forces and containing no constraint terms),
and its output torques — the constraint torques — are all zero, as an
unconstrained solution exerts no constraint forces. -/
theorem CartToJnt_nc0_equals_unconstrained (st : SolverState)
    (q q_dot q_dotdot : List ℚ) (alfa : JacIn) (beta : List ℚ)
    (f_ext : List Vec6) (torques : List ℚ) (hnc : st.cfg.nc = 0)
    (hcode : (CartToJnt st q q_dot q_dotdot alfa beta f_ext torques).code = 0) :
    (CartToJnt st q q_dot q_dotdot alfa beta f_ext torques).qddOut =
      (List.range st.cfg.nj).map
        (fun i => aba_qdd (toAba (dynInOf st.cfg q q_dot torques f_ext alfa))
          st.cfg.accRoot i) ∧
    (CartToJnt st q q_dot q_dotdot alfa beta f_ext torques).tauOut =
      List.replicate st.cfg.nj 0 := by
  unfold CartToJnt at hcode ⊢
  split_ifs at hcode ⊢
  all_goals norm_num at hcode
  have hq := (nc0_refines_aba hnc (dynInOf st.cfg q q_dot torques f_ext alfa)
    (lamOf st.cfg (dynInOf st.cfg q q_dot torques f_ext alfa) beta)
    st.cfg.accRoot)
  constructor
  · show (List.range st.cfg.nj).map _ = _
    exact List.map_congr_left (fun i _ => hq.1 i)
  · show (List.range st.cfg.nj).map _ = _
    rw [List.map_congr_left (fun i _ => hq.2 i)]
    simp

/-- Trivial SVD collaborator for the (empty) 0×0 matrices. -/
def svdW0 : (Fin 0 → Fin 0 → ℚ) →
    ((Fin 0 → Fin 0 → ℚ) × (Fin 0 → ℚ) × (Fin 0 → Fin 0 → ℚ)) :=
  fun M => (M, fun _ => 0, M)

/-- Concrete solver with `nj = ns = 1` and `nc = 0`. -/
def stW0 : SolverState := ChainHdSolver_Vereshchagin cdW 0 0 svdW0

/-- Concrete constraint Jacobian with zero columns. -/
def jacW0 : JacIn where
  cols := 0
  col := fun _ => 0

/-- Closed instance of `CartToJnt_nc0_equals_unconstrained`: the concrete
`nc = 0` solver call succeeds and returns the unconstrained accelerations
and zero torques. -/
theorem CartToJnt_nc0_equals_unconstrained_witness :
    stW0.cfg.nc = 0 ∧
    (CartToJnt stW0 [0] [0] [0] jacW0 [] [0] [0]).code = 0 ∧
    (CartToJnt stW0 [0] [0] [0] jacW0 [] [0] [0]).qddOut =
      (List.range 1).map
        (fun i => aba_qdd (toAba (dynInOf stW0.cfg [0] [0] [0] [0] jacW0))
          stW0.cfg.accRoot i) ∧
    (CartToJnt stW0 [0] [0] [0] jacW0 [] [0] [0]).tauOut =
      List.replicate 1 0 := by
  have hc : (CartToJnt stW0 [0] [0] [0] jacW0 [] [0] [0]).code = 0 := rfl
  have h := CartToJnt_nc0_equals_unconstrained stW0 [0] [0] [0] jacW0 [] [0] [0]
    rfl hc
  exact ⟨rfl, hc, h.1, h.2⟩

/-!
## Chain storage of the solver (C9)

The header declares the member `const Chain& chain` (line 130): the solver
stores a non-owning reference bound at construction to the caller-owned
chain object, while the constructor documentation (line 52) states "an
internal copy will be made".  The reference member is embedded as an address
into caller-owned storage (a heap of chain objects); the solver's view of
the chain is whatever currently lives at that address.
-/

/-- The external chain object with its queryable counts (spec §6). -/
structure ChainObj where
  nsegs : ℕ
  njoints : ℕ
  deriving DecidableEq

/-- Embedding of the solver's chain storage (header line 130,
`const Chain& chain`): the address of the caller-owned chain plus the
constraint count, as bound by the constructor. -/
structure RefSolver where
  chainAddr : ℕ
  nc : ℕ
  deriving DecidableEq

/-- The constructor binds the reference member to the caller's chain
object — it stores the address, not a copy of the data (header line 130). -/
def mkRefSolver (addr : ℕ) (nc : ℕ) : RefSolver :=
  ⟨addr, nc⟩

/-- The chain the solver sees when it runs: the object currently stored at
the referenced address in the caller-owned storage. -/
def solverChainView (heap : List ChainObj) (s : RefSolver) : ChainObj :=
  heap.getD s.chainAddr ⟨0, 0⟩

/-- Caller-owned storage holding a one-segment chain at address 0. -/
def heapA : List ChainObj := [⟨1, 1⟩]

/-- The same storage after the caller replaced its chain by a two-segment
chain (a mutation the solver is never told about). -/
def heapB : List ChainObj := [⟨2, 2⟩]

/-- The solver constructed over the caller's chain at address 0. -/
def sRef : RefSolver := mkRefSolver 0 1

/-- C9 (code bug): the constructor does not make an internal copy — the
member `const Chain& chain` (header line 130) is a non-owning reference, so
after the caller mutates its chain object the solver's view of the chain
changes: constructed over the one-segment chain, the solver sees a
two-segment chain once the caller's object changes, contradicting the
constructor's own documentation "an internal copy will be made" (header
line 52) and the claimed independence from the caller's chain. -/
theorem chain_reference_not_copied :
    solverChainView heapA sRef = ⟨1, 1⟩ ∧
    solverChainView heapB sRef = ⟨2, 2⟩ ∧
    solverChainView heapB sRef ≠ solverChainView heapA sRef := by
  refine ⟨rfl, rfl, ?_⟩
  intro h
  cases h

/-- Closed instance of `CartToJnt_size_validation`: the concrete call with
`q` of the wrong length returns a negative code and leaves the outputs
untouched. -/
theorem CartToJnt_size_validation_witness :
    (CartToJnt stW [] [0] [0] jacW [0] [0] [0]).code < 0 ∧
    (CartToJnt stW [] [0] [0] jacW [0] [0] [0]).qddOut = [0] ∧
    (CartToJnt stW [] [0] [0] jacW [0] [0] [0]).tauOut = [0] := by
  have hne : (CartToJnt stW [] [0] [0] jacW [0] [0] [0]).code ≠ 0 := by decide
  have h := (CartToJnt_size_validation stW [] [0] [0] jacW [0] [0] [0]).2.1 hne
  exact ⟨h.1, h.2.1, h.2.2⟩

/-- Closed instance of `CartToJnt_code_classes`: a constraint-Jacobian
column mismatch (with `q`, `q_dot` correctly sized) returns `-2`. -/
theorem CartToJnt_code_classes_witness :
    (CartToJnt stW [0] [0] [0] jacW0 [0] [0] [0]).code = -2 :=
  (CartToJnt_code_classes stW [0] [0] [0] jacW0 [0] [0] [0]).1.2
    ⟨rfl, rfl, by decide⟩
